import Mathlib

/-!
Verification development for the RIP2ETF repository.

Shallow embedding of the relevant TypeScript modules:
* `packages/plugin-rip2etf-api/src/utils/normalize.ts` (`reconcileOverview`, `alignAndRebase`)
* `packages/plugin-rip2etf-api/src/utils/tickers.ts` (symbol extraction)
* `packages/plugin-rip2etf-api/src/providers/alphaVantage.ts` and `stooq.ts`
* the `rip2etf.snapshot` action handler
* the Hyperliquid `priceCheck` / `spotTrade` actions with their mocked SDK data

JavaScript numbers are modelled as rationals (`ℚ`); the non-finite values a
computation can produce (`NaN`, `Infinity`) are modelled explicitly where the
code can produce them.  JavaScript `Set` insertion-order semantics are modelled
by first-occurrence deduplication on lists, and JS `Map`s built from entry
lists by last-entry-wins association lookup.
-/

namespace RIP2ETF

/-- `Set.add` on the insertion-ordered-list model of a JS `Set`. -/
def addToSet {α : Type} [DecidableEq α] (set : List α) (x : α) : List α :=
  if x ∈ set then set else set ++ [x]

/-- First-occurrence-order deduplication: the model of
`Array.from(new Set(xs))` (a JS `Set` iterates in insertion order). -/
def dedupFirst {α : Type} [DecidableEq α] (xs : List α) : List α :=
  xs.foldl addToSet []

/-! ### Character-level string operations

The JS string methods the embedded code uses, implemented on `List Char`
(`String.data`) so that everything evaluates by plain structural reduction:
`split` on a one-character separator, `trim`, `startsWith`,
`toLowerCase`/`toUpperCase` (ASCII, which is all the embedded code feeds
them). -/

/-- `String.prototype.split(sep)` for a one-character separator: empty pieces
are preserved, the empty string yields `[""]`. -/
def sSplit (sep : Char) : List Char → List (List Char)
  | [] => [[]]
  | c :: rest =>
    let r := sSplit sep rest
    if c == sep then [] :: r
    else
      match r with
      | [] => [[c]]
      | g :: gs => (c :: g) :: gs

/-- `String.prototype.trim` (ASCII whitespace). -/
def sTrim (cs : List Char) : List Char :=
  ((cs.dropWhile Char.isWhitespace).reverse.dropWhile Char.isWhitespace).reverse

/-- `a.startsWith(b)`. -/
def startsWithStr (a b : String) : Bool :=
  b.data.isPrefixOf a.data

/-- `String.prototype.toLowerCase` (ASCII). -/
def lowerStr (s : String) : String :=
  String.mk (s.data.map Char.toLower)

/-- `String.prototype.toUpperCase` (ASCII). -/
def upperStr (s : String) : String :=
  String.mk (s.data.map Char.toUpper)

/-! ### Exact rational arithmetic

JS `number` arithmetic is modelled exactly on `ℚ`.  The operations are
written through `Rat.divInt` on numerators and denominators (which the kernel
evaluates by integer arithmetic); the `q*_eq` bridge lemmas identify them with
the field operations of `ℚ`, which the general theorems use. -/

def qAdd (a b : ℚ) : ℚ :=
  Rat.divInt (a.num * (b.den : Int) + b.num * (a.den : Int))
    ((a.den : Int) * (b.den : Int))

def qSub (a b : ℚ) : ℚ :=
  Rat.divInt (a.num * (b.den : Int) - b.num * (a.den : Int))
    ((a.den : Int) * (b.den : Int))

def qMul (a b : ℚ) : ℚ :=
  Rat.divInt (a.num * b.num) ((a.den : Int) * (b.den : Int))

def qDiv (a b : ℚ) : ℚ :=
  Rat.divInt (a.num * (b.den : Int)) ((a.den : Int) * b.num)

/-- `⌊q⌋` by floor integer division of the numerator by the denominator. -/
def qFloor (q : ℚ) : Int :=
  Int.fdiv q.num (q.den : Int)

theorem qAdd_eq (a b : ℚ) : qAdd a b = a + b := by
  rw [qAdd, Rat.divInt_eq_div]
  have ha : ((a.den : ℚ)) ≠ 0 := by
    exact_mod_cast a.den_nz
  have hb : ((b.den : ℚ)) ≠ 0 := by
    exact_mod_cast b.den_nz
  conv_rhs => rw [← Rat.num_div_den a, ← Rat.num_div_den b]
  push_cast
  field_simp

theorem qSub_eq (a b : ℚ) : qSub a b = a - b := by
  rw [qSub, Rat.divInt_eq_div]
  have ha : ((a.den : ℚ)) ≠ 0 := by
    exact_mod_cast a.den_nz
  have hb : ((b.den : ℚ)) ≠ 0 := by
    exact_mod_cast b.den_nz
  conv_rhs => rw [← Rat.num_div_den a, ← Rat.num_div_den b]
  push_cast
  field_simp
  ring

theorem qMul_eq (a b : ℚ) : qMul a b = a * b := by
  rw [qMul, Rat.divInt_eq_div]
  have ha : ((a.den : ℚ)) ≠ 0 := by
    exact_mod_cast a.den_nz
  have hb : ((b.den : ℚ)) ≠ 0 := by
    exact_mod_cast b.den_nz
  conv_rhs => rw [← Rat.num_div_den a, ← Rat.num_div_den b]
  push_cast
  field_simp

theorem qDiv_eq (a b : ℚ) : qDiv a b = a / b := by
  by_cases hb0 : b = 0
  · subst hb0
    rw [qDiv]
    simp
  · rw [qDiv, Rat.divInt_eq_div]
    have ha : ((a.den : ℚ)) ≠ 0 := by
      exact_mod_cast a.den_nz
    have hbd : ((b.den : ℚ)) ≠ 0 := by
      exact_mod_cast b.den_nz
    have hbn : ((b.num : ℚ)) ≠ 0 := by
      exact_mod_cast Rat.num_ne_zero.mpr hb0
    conv_rhs => rw [← Rat.num_div_den a, ← Rat.num_div_den b]
    push_cast
    field_simp

/-! ### A stable comparator sort

JS `Array.prototype.sort` is stable; the comparator used by the code is
`(a, b) => a.t.localeCompare(b.t)` whose order on same-format ASCII date
strings is plain code-unit lexicographic order, embedded here as `charsLt`.
The sort is a left-fold insertion sort that inserts each element after every
earlier element that does not compare strictly greater — exactly a stable
ascending sort. -/

/-- Strict code-unit lexicographic order on character lists. -/
def charsLt : List Char → List Char → Bool
  | [], [] => false
  | [], _ :: _ => true
  | _ :: _, [] => false
  | a :: as, b :: bs =>
    if a.toNat < b.toNat then true
    else if a.toNat = b.toNat then charsLt as bs
    else false

/-- Insert `x` before the first element it compares strictly below. -/
def insertStable {α : Type} (lt : α → α → Bool) (x : α) : List α → List α
  | [] => [x]
  | y :: ys => if lt x y then x :: y :: ys else y :: insertStable lt x ys

/-- Stable insertion sort (left fold, so equal elements keep their order). -/
def sortStable {α : Type} (lt : α → α → Bool) (l : List α) : List α :=
  l.foldl (fun acc x => insertStable lt x acc) []

theorem charsLt_asymm :
    ∀ a b : List Char, charsLt a b = true → charsLt b a = false := by
  intro a
  induction a with
  | nil =>
    intro b hab
    cases b with
    | nil => simp [charsLt] at hab
    | cons c cs => simp [charsLt]
  | cons x xs ih =>
    intro b hab
    cases b with
    | nil => simp [charsLt] at hab
    | cons y ys =>
      rw [charsLt] at hab ⊢
      by_cases h1 : x.toNat < y.toNat
      · have h2 : ¬y.toNat < x.toNat := by omega
        have h3 : ¬y.toNat = x.toNat := by omega
        simp [h2, h3]
      · by_cases h2 : x.toNat = y.toNat
        · have h3 : ¬y.toNat < x.toNat := by omega
          simp only [if_neg h1, if_pos h2] at hab
          simp [h3, h2.symm]
          exact ih ys hab
        · simp [h1, h2] at hab

theorem charsLt_trans :
    ∀ a b c : List Char, charsLt a b = true → charsLt b c = true →
      charsLt a c = true := by
  intro a
  induction a with
  | nil =>
    intro b c hab hbc
    cases b with
    | nil => simp [charsLt] at hab
    | cons y ys =>
      cases c with
      | nil => simp [charsLt] at hbc
      | cons z zs => simp [charsLt]
  | cons x xs ih =>
    intro b c hab hbc
    cases b with
    | nil => simp [charsLt] at hab
    | cons y ys =>
      cases c with
      | nil => simp [charsLt] at hbc
      | cons z zs =>
        rw [charsLt] at hab hbc ⊢
        by_cases h1 : x.toNat < y.toNat
        · by_cases h2 : y.toNat < z.toNat
          · have : x.toNat < z.toNat := by omega
            simp [this]
          · by_cases h3 : y.toNat = z.toNat
            · have : x.toNat < z.toNat := by omega
              simp [this]
            · simp [h2, h3] at hbc
        · by_cases h1e : x.toNat = y.toNat
          · simp only [if_neg h1, if_pos h1e] at hab
            by_cases h2 : y.toNat < z.toNat
            · have : x.toNat < z.toNat := by omega
              simp [this]
            · by_cases h3 : y.toNat = z.toNat
              · simp only [if_neg h2, if_pos h3] at hbc
                have h4 : ¬x.toNat < z.toNat := by omega
                have h5 : x.toNat = z.toNat := by omega
                simp only [if_neg h4, if_pos h5]
                exact ih ys zs hab hbc
              · simp [h2, h3] at hbc
          · simp [h1, h1e] at hab

theorem mem_insertStable {α : Type} (lt : α → α → Bool) (x : α) :
    ∀ (l : List α) (z : α), z ∈ insertStable lt x l ↔ z = x ∨ z ∈ l := by
  intro l
  induction l with
  | nil => intro z; simp [insertStable]
  | cons y ys ih =>
    intro z
    rw [insertStable]
    by_cases h : lt x y
    · simp [h]
    · simp only [if_neg h, List.mem_cons, ih z]
      tauto

theorem pairwise_insertStable {α : Type} (lt : α → α → Bool)
    (hasymm : ∀ a b, lt a b = true → lt b a = false)
    (htrans : ∀ a b c, lt a b = true → lt b c = true → lt a c = true)
    (x : α) :
    ∀ l : List α, l.Pairwise (fun a b => lt b a = false) →
      (insertStable lt x l).Pairwise (fun a b => lt b a = false) := by
  intro l
  induction l with
  | nil => intro _; simp [insertStable]
  | cons y ys ih =>
    intro hl
    rw [List.pairwise_cons] at hl
    rw [insertStable]
    by_cases h : lt x y
    · rw [if_pos h, List.pairwise_cons]
      refine ⟨?_, List.pairwise_cons.mpr hl⟩
      intro z hz
      rcases List.mem_cons.mp hz with rfl | hz
      · exact hasymm x z h
      · by_cases hzx : lt z x
        · have hzy := htrans z x y hzx h
          rw [hl.1 z hz] at hzy
          exact absurd hzy (by simp)
        · simpa using hzx
    · rw [if_neg h, List.pairwise_cons]
      refine ⟨?_, ih hl.2⟩
      intro z hz
      rcases (mem_insertStable lt x ys z).mp hz with rfl | hz
      · simpa using h
      · exact hl.1 z hz

theorem pairwise_sortStable {α : Type} (lt : α → α → Bool)
    (hasymm : ∀ a b, lt a b = true → lt b a = false)
    (htrans : ∀ a b c, lt a b = true → lt b c = true → lt a c = true)
    (l : List α) :
    (sortStable lt l).Pairwise (fun a b => lt b a = false) := by
  rw [sortStable]
  have hgo : ∀ (xs : List α) (acc : List α),
      acc.Pairwise (fun a b => lt b a = false) →
      (xs.foldl (fun acc x => insertStable lt x acc) acc).Pairwise
        (fun a b => lt b a = false) := by
    intro xs
    induction xs with
    | nil => intro acc hacc; exact hacc
    | cons x xs ih =>
      intro acc hacc
      exact ih (insertStable lt x acc)
        (pairwise_insertStable lt hasymm htrans x acc hacc)
  exact hgo l [] List.Pairwise.nil

theorem mem_sortStable {α : Type} (lt : α → α → Bool) (l : List α) (z : α) :
    z ∈ sortStable lt l ↔ z ∈ l := by
  rw [sortStable]
  have hgo : ∀ (xs : List α) (acc : List α),
      z ∈ xs.foldl (fun acc x => insertStable lt x acc) acc ↔
        z ∈ acc ∨ z ∈ xs := by
    intro xs
    induction xs with
    | nil => intro acc; simp
    | cons x xs ih =>
      intro acc
      rw [List.foldl_cons, ih (insertStable lt x acc)]
      rw [mem_insertStable lt x acc z]
      simp only [List.mem_cons]
      tauto
  rw [hgo l []]
  simp

/-- A JavaScript value as it appears in the overview fragments: `vnull` stands
for both `null` and `undefined` (the code at normalize.ts:17 treats them the
same), `varr` for the string arrays used by `dataSources`. -/
inductive JsVal where
  | vnull : JsVal
  | vstr : String → JsVal
  | vnum : ℚ → JsVal
  | varr : List String → JsVal
deriving DecidableEq, Repr

/-- `value === undefined || value === null` (normalize.ts:17). -/
def JsVal.isNullish : JsVal → Bool
  | .vnull => true
  | _ => false

/-- Association-list lookup, first entry wins (a JS object has unique keys, so
for faithful inputs the distinction does not matter). -/
def lookupAssoc (l : List (String × JsVal)) (k : String) : Option JsVal :=
  (l.find? (fun p => p.1 = k)).map (·.2)

/-! ## `normalize.ts` — `reconcileOverview` -/

/-- A partial overview fragment: the `Object.entries` of the JS object, in
property insertion order. -/
abbrev Fragment := List (String × JsVal)

/-- The merged overview: the mutable `merged` object of `reconcileOverview`,
with the non-`dataSources` properties as an entry list (insertion order) and
`dataSources` kept apart, as in the TS `EtfOverview` shape. -/
structure Overview where
  fields : List (String × JsVal)
  dataSources : List String
deriving DecidableEq, Repr

/-- `if ((merged)[key] === undefined) merged[key] = value` — a property is
added only when absent (normalize.ts:18-20). -/
def setIfAbsent (fl : List (String × JsVal)) (k : String) (v : JsVal) :
    List (String × JsVal) :=
  if (lookupAssoc fl k).isSome then fl else fl ++ [(k, v)]

/-- The inner `Object.entries(rest).forEach` loop of `reconcileOverview`:
skip null/undefined values, otherwise set-if-absent (normalize.ts:16-21). -/
def mergeEntries (fl : List (String × JsVal)) (es : List (String × JsVal)) :
    List (String × JsVal) :=
  es.foldl (fun acc p => if p.2.isNullish then acc else setIfAbsent acc p.1 p.2) fl

/-- One iteration of the `for (const fragment of fragments)` loop
(normalize.ts:12-26): skip null/undefined fragments, split off `dataSources`,
merge the remaining entries first-non-null-wins, append the fragment's
`dataSources` array when it is one. -/
def reconcileStep (acc : Overview) (frag : Option Fragment) : Overview :=
  match frag with
  | none => acc
  | some frag =>
    let dsv := lookupAssoc frag "dataSources"
    let rest := frag.filter (fun p => p.1 ≠ "dataSources")
    let fields := mergeEntries acc.fields rest
    let ds := match dsv with
      | some (.varr xs) => acc.dataSources ++ xs
      | _ => acc.dataSources
    ⟨fields, ds⟩

/-- `reconcileOverview` (normalize.ts:3-30): start from `{ symbol, dataSources: [] }`,
run the fragment loop, and finally deduplicate the collected `dataSources` via
`Array.from(new Set(...))`. -/
def reconcileOverview (symbol : String) (fragments : List (Option Fragment)) :
    Overview :=
  let merged := fragments.foldl reconcileStep ⟨[("symbol", .vstr symbol)], []⟩
  ⟨merged.fields, dedupFirst merged.dataSources⟩

/-- The entry stream the fragments feed into the merge: all non-`dataSources`
entries of the non-null fragments, in processing order. -/
def entryStream (fragments : List (Option Fragment)) : List (String × JsVal) :=
  (fragments.filterMap id).flatMap (fun frag => frag.filter (fun p => p.1 ≠ "dataSources"))

/-- The first non-null/non-undefined value offered for key `k`, in fragment
order — what the spec says the merge keeps. -/
def firstNonNull (k : String) (fragments : List (Option Fragment)) : Option JsVal :=
  ((entryStream fragments).find? (fun p => p.1 = k ∧ ¬p.2.isNullish)).map (·.2)

/-! ## `normalize.ts` — `alignAndRebase` -/

/-- One OHLCV bar, reduced to the fields `alignAndRebase` reads: the date
string `t` and the close `c` (types.ts `Bar`). -/
structure Bar where
  t : String
  c : ℚ
deriving DecidableEq, Repr

/-- A price history (types.ts `PriceHistory`), reduced to the fields
`alignAndRebase` reads. -/
structure PriceHistory where
  symbol : String
  bars : List Bar
  dataSources : List String
deriving DecidableEq, Repr

/-- The value of a rebased point: the arithmetic at normalize.ts:52 runs on JS
doubles and can produce `NaN` (stored explicitly there) and, when the baseline
is `0`, `±Infinity`. -/
inductive RVal where
  | nan : RVal
  | inf : RVal
  | ninf : RVal
  | num : ℚ → RVal
deriving DecidableEq, Repr

structure RPoint where
  t : String
  v : RVal
deriving DecidableEq, Repr

structure RSeries where
  symbol : String
  points : List RPoint
deriving DecidableEq, Repr

structure RebaseResult where
  dates : List String
  table : List RSeries
  sources : List String
deriving DecidableEq, Repr

/-- Lookup in `new Map(ph.bars.map(b => [b.t, b.c]))`: a JS `Map` built from
an entry list keeps the last entry for a duplicated key. -/
def barLookup (bars : List Bar) (d : String) : Option ℚ :=
  (bars.reverse.find? (fun b => b.t = d)).map (·.c)

/-- The list of a history's date strings, `ph.bars.map(b => b.t)`. -/
def barDates (ph : PriceHistory) : List String :=
  ph.bars.map (·.t)

/-- One step of the `series.reduce` computing `commonDates`
(normalize.ts:41-45): an empty accumulator is replaced by the current series'
dates, otherwise it is filtered by membership. -/
def commonStep (acc : List String) (ph : PriceHistory) : List String :=
  let dates := barDates ph
  if acc.length = 0 then dates else acc.filter (fun d => dates.contains d)

/-- `commonDates` as computed by the `reduce` with initial accumulator `[]`. -/
def commonDates (series : List PriceHistory) : List String :=
  series.foldl commonStep []

/-- `price ? (price / baseline) * 100 : NaN` (normalize.ts:52): `price` is
`undefined` when the date is missing from the map and falsy when `0`; a
non-zero price over a zero baseline is JS `±Infinity`. -/
def rebaseVal (price : Option ℚ) (baseline : ℚ) : RVal :=
  match price with
  | none => .nan
  | some p =>
    if p = 0 then .nan
    else if baseline = 0 then (if p > 0 then .inf else .ninf)
    else .num (qMul (qDiv p baseline) 100)

/-- `map.get(commonDates[0]) ?? 1` (normalize.ts:49): when `commonDates` is
empty, `commonDates[0]` is `undefined` and the `get` misses, so the fallback
`1` applies. -/
def baselineOf (bars : List Bar) (cds : List String) : ℚ :=
  match cds.head? with
  | none => 1
  | some d0 => (barLookup bars d0).getD 1

/-- `alignAndRebase` (normalize.ts:32-59). -/
def alignAndRebase (series : List PriceHistory) : RebaseResult :=
  if series.isEmpty then ⟨[], [], []⟩
  else
    let cds := commonDates series
    let table := series.map (fun ph =>
      let baseline := baselineOf ph.bars cds
      let points := cds.map (fun d => RPoint.mk d (rebaseVal (barLookup ph.bars d) baseline))
      RSeries.mk ph.symbol points)
    let sources := dedupFirst (series.flatMap (·.dataSources))
    ⟨cds, table, sources⟩

/-! ## `tickers.ts` — symbol extraction

The extraction pipeline of `collectSymbols`/`extractFromText`
(tickers.ts:113-213): phrase aliasing, the global regex
`TICKER_REGEX = /\b[A-Z]{2,6}(?:\.[A-Z]{1,3})?\b/g`, stop-word filtering and
the primary alias map.  The regex engine is embedded directly: a
word-boundary-aware greedy backtracking matcher for exactly this pattern,
scanned left to right over the string as JS `String.prototype.match` with the
`g` flag does. -/

/-- JS `\w`, i.e. `[A-Za-z0-9_]` (used for `\b` word boundaries and for the
`[^\w.]` strip). -/
def isWordChar (c : Char) : Bool := c.isAlpha || c.isDigit || c == '_'

/-- The character class `[A-Z]`. -/
def isUpperAZ (c : Char) : Bool := c.isUpper

/-- The trailing `\b` of `TICKER_REGEX`: the previous character is a word
character (the pattern ends in `[A-Z]`), so the boundary holds iff the next
character is absent or not a word character. -/
def boundaryAfter : List Char → Bool
  | [] => true
  | c :: _ => !isWordChar c

/-- Greedy backtracking attempt for `[A-Z]{1,3}\b` right after the dot of the
optional group `(?:\.[A-Z]{1,3})?`: try `j` letters, largest first.  Returns
the number of letters consumed. -/
def groupJ (rest : List Char) : Nat → Option Nat
  | 0 => none
  | Nat.succ j =>
    let jj := j + 1
    if (rest.take jj).length = jj && (rest.take jj).all isUpperAZ
        && boundaryAfter (rest.drop jj) then
      some jj
    else groupJ rest j

/-- Greedy backtracking attempt for `[A-Z]{2,6}(?:\.[A-Z]{1,3})?\b` at the
start of `cs`, trying `k` leading letters, largest first; for each `k` the
optional group is tried before the group-less continuation, as the regex
engine does.  Returns the total number of characters matched.  The leading
`\b` is the caller's responsibility (the scanner only tries positions not
preceded by a word character). -/
def matchAt (cs : List Char) : Nat → Option Nat
  | 0 => none
  | 1 => none
  | Nat.succ (Nat.succ k) =>
    let kk := k + 2
    if (cs.take kk).length = kk && (cs.take kk).all isUpperAZ then
      match cs.drop kk with
      | '.' :: rest2 =>
        match groupJ rest2 3 with
        | some j => some (kk + 1 + j)
        | none => if boundaryAfter (cs.drop kk) then some kk else matchAt cs (k + 1)
      | rest =>
        if boundaryAfter rest then some kk else matchAt cs (k + 1)
    else matchAt cs (k + 1)

/-- Left-to-right global scan, as `text.match(TICKER_REGEX)`: at each position
not preceded by a word character try a match, on success emit it and resume
right after it (the last matched character is a letter, hence a word
character); otherwise advance one character.  The fuel starts at the string
length and every step consumes at least one character, so it never runs out. -/
def scanFuel : Nat → List Char → Bool → List (List Char)
  | 0, _, _ => []
  | Nat.succ fuel, cs, prevWord =>
    match cs with
    | [] => []
    | c :: rest =>
      if prevWord then scanFuel fuel rest (isWordChar c)
      else
        match matchAt cs 6 with
        | some n => cs.take n :: scanFuel fuel (cs.drop n) true
        | none => scanFuel fuel rest (isWordChar c)

/-- All matches of `TICKER_REGEX` in `s`, in order. -/
def scanMatches (s : String) : List String :=
  (scanFuel s.data.length s.data false).map (fun cs => String.mk cs)

/-- Case-insensitive character comparison, as the regex `i` flag. -/
def lowerEq (a b : Char) : Bool := a.toLower == b.toLower

/-- Does `s` start with `phrase`, case-insensitively? -/
def ciPrefixOf : List Char → List Char → Bool
  | [], _ => true
  | _ :: _, [] => false
  | p :: ps, c :: cs => lowerEq p c && ciPrefixOf ps cs

/-- One `normalized.replace(pattern, repl)` with a `gi` literal-phrase
pattern: single left-to-right pass, each case-insensitive occurrence replaced,
scanning resuming after the replaced occurrence.  Fuel starts at the string
length; every step consumes at least one character (the phrases are
non-empty). -/
def replaceFuel (phrase repl : List Char) : Nat → List Char → List Char
  | 0, s => s
  | Nat.succ fuel, s =>
    match s with
    | [] => []
    | c :: rest =>
      if phrase.length > 0 && ciPrefixOf phrase s then
        repl ++ replaceFuel phrase repl fuel (s.drop phrase.length)
      else c :: replaceFuel phrase repl fuel rest

/-- Global case-insensitive literal replacement (`escapeRegExp` makes the
phrase literal). -/
def replaceAllCI (phrase repl s : String) : String :=
  String.mk (replaceFuel phrase.data repl.data s.data.length s.data)

/-- `PHRASE_ALIAS_MAP` (tickers.ts:81-93), in property order. -/
def PHRASE_ALIAS_MAP : List (String × String) :=
  [("S&P 500", "SP500"),
   ("S&P500", "SP500"),
   ("S & P 500", "SP500"),
   ("SP 500", "SP500"),
   ("SNP 500", "SP500"),
   ("NASDAQ 100", "NASDAQ100"),
   ("NASDAQ-100", "NASDAQ100"),
   ("NASDAQ COMPOSITE", "NASDAQ"),
   ("NASDAQ", "NASDAQ"),
   ("DOW JONES", "DOWJONES"),
   ("DOW 30", "DOW30")]

/-- `normalizePhrases` (tickers.ts:113-120): each phrase replaced in map order
by its replacement padded with spaces. -/
def normalizePhrases (text : String) : String :=
  PHRASE_ALIAS_MAP.foldl
    (fun acc p => replaceAllCI p.1 (" " ++ p.2 ++ " ") acc) text

/-- `STOP_WORDS` (tickers.ts:3-77).  The entry written "PUÃ’" keeps
the mojibake of the source verbatim. -/
def STOP_WORDS : List String :=
  ["ETF", "ETFS", "INDICE", "INDEX", "SP", "USA", "USD", "EUR", "CHF", "MR",
   "RIP", "FIRE", "VS", "E", "DI", "DEL", "DELLA", "DEI", "DEGLI", "DAL",
   "DALLA", "CON", "PER", "NEL", "NELLA", "NEI", "NELLE", "GLI", "LE", "IL",
   "LO", "LA", "UNA", "UNO", "UN", "ANCHE", "GRAFICO", "GRAFICI", "SNAPSHOT",
   "COMPARA", "CONFRONTA", "CHECK", "PUOI", "PUÃ’", "DAMMI",
   "DARMI", "DAMI", "DARTI", "CHIEDO", "VOGLIO", "PANORAMICA", "AGGIORNATA",
   "CONFRONTO", "ULTIMI", "MESI", "MAGARI", "INCLUDENDO", "ANDAMENTO", "ORA",
   "STO", "PREPARANDO", "GENERANDO", "RISULTATI", "ISSUER", "BENCHMARK",
   "CATEGORIA", "TER", "TOP", "HOLDINGS", "PERFORMANCE", "NUOVO",
   "NUOVAMENTE", "PREGO"]

/-- `PRIMARY_ALIAS_MAP` (tickers.ts:95-111). -/
def PRIMARY_ALIAS_MAP : List (String × String) :=
  [("SP500", "SPY"), ("S&P500", "SPY"), ("S&P", "SPY"), ("SPX", "SPY"),
   ("SNP", "SPY"), ("GSPC", "SPY"), ("NASDAQ", "QQQ"), ("NASDAQ100", "QQQ"),
   ("NAS100", "QQQ"), ("NDX", "QQQ"), ("IXIC", "QQQ"), ("DOWJONES", "DIA"),
   ("DOW", "DIA"), ("DJIA", "DIA"), ("DOW30", "DIA")]

/-- `PRIMARY_ALIAS_MAP[upper] ?? upper`. -/
def aliasOf (upper : String) : String :=
  ((PRIMARY_ALIAS_MAP.find? (fun p => p.1 = upper)).map (·.2)).getD upper

/-- The body of the per-match loop of `extractFromText` (tickers.ts:126-134):
strip to `[\w.]`, drop empty or shorter-than-3 tokens, uppercase, drop stop
words before and after primary aliasing; `some` is the symbol added to the
set. -/
def cleanTok (raw : String) : String :=
  String.mk (raw.data.filter (fun c => isWordChar c || c == '.'))

def tokenSymbol (raw : String) : Option String :=
  let token := cleanTok raw
  if token.length = 0 || token.length < 3 then none
  else
    let upper := upperStr token
    if upper ∈ STOP_WORDS then none
    else
      let normalized := aliasOf upper
      if normalized ∈ STOP_WORDS then none
      else some normalized

/-- The per-match body of the `extractFromText` loop: add the token's symbol
to the set when the pipeline keeps it. -/
def extractStep (acc : List String) (raw : String) : List String :=
  match tokenSymbol raw with
  | none => acc
  | some sym => addToSet acc sym

/-- `extractFromText` (tickers.ts:122-135) with the target set threaded
explicitly: no-op on the empty (falsy) string, otherwise add each match's
symbol in order. -/
def extractFromText (target : List String) (text : String) : List String :=
  if text = "" then target
  else (scanMatches (normalizePhrases text)).foldl extractStep target

/-- Symbol extraction from a single free-text string, starting from an empty
set — the text path of `collectSymbols`. -/
def extractList (text : String) : List String :=
  extractFromText [] text

/-- The raw (undeduplicated) symbol stream of a text: each regex match's
token-pipeline result, in match order. -/
def extractRaw (text : String) : List String :=
  if text = "" then []
  else (scanMatches (normalizePhrases text)).filterMap tokenSymbol

/-- `normalizeSymbol` (tickers.ts:161-168), for fallback symbols: strip to
`[\w.]` and trim, drop empty or shorter-than-2, uppercase, drop stop words (no
aliasing). -/
def normalizeSymbol (candidate : String) : Option String :=
  let token := String.mk (sTrim (candidate.data.filter (fun c => isWordChar c || c == '.')))
  if token.length = 0 || token.length < 2 then none
  else
    let upper := upperStr token
    if upper ∈ STOP_WORDS then none else some upper

/-- `limitResult` (tickers.ts:170-173). -/
def limitResult (set : List String) (limit : Option Nat) : List String :=
  match limit with
  | some n => if n > 0 then set.take n else set
  | none => set

/-- The message-content fields `collectSymbols` reads.  `addCandidate`
recurses over arbitrary JS values; the shapes the runtime feeds it are a
string `symbol`, a string array `symbols` and the message text, which is what
is modelled here. -/
structure MessageContent where
  symbol : Option String
  symbols : List String
  text : Option String

/-- The message-content harvest of `collectSymbols` (tickers.ts:182-188):
`symbol`, then `symbols`, then the free text, all into one insertion-ordered
set. -/
def messageSymbolsOf (content : Option MessageContent) : List String :=
  match content with
  | none => []
  | some c =>
    let s1 := match c.symbol with
      | some s => extractFromText [] s
      | none => []
    let s2 := c.symbols.foldl (fun acc s => extractFromText acc s) s1
    match c.text with
    | some t => extractFromText s2 t
    | none => s2

/-- The fallback-symbol loop of `collectSymbols` (tickers.ts:191-198 and
203-209). -/
def fallbackFold (fallbackSymbols : Option (List String))
    (acc : List String) : List String :=
  match fallbackSymbols with
  | some fs =>
    fs.foldl (fun acc s =>
      match normalizeSymbol s with
      | some n => addToSet acc n
      | none => acc) acc
  | none => acc

/-- `collectSymbols` (tickers.ts:175-213): harvest the message content first;
when it yielded symbols, add the normalized fallback symbols and apply the
limit; otherwise build the set from the fallback symbols alone. -/
def collectSymbols (content : Option MessageContent)
    (fallbackSymbols : Option (List String)) (limit : Option Nat) :
    List String :=
  let messageSymbols := messageSymbolsOf content
  if messageSymbols.length > 0 then
    limitResult (fallbackFold fallbackSymbols messageSymbols) limit
  else
    limitResult (fallbackFold fallbackSymbols []) limit

/-! ## Providers — `alphaVantage.ts` and `stooq.ts`

The provider fetchers' pure ETL around the HTTP calls.  The HTTP layer is a
parameter: a fetch outcome is `Except Unit α` (`error` = the promise rejected,
caught by the provider).  JS `parseFloat`/`Number` string-to-number conversion
is a parameter `parse : String → Option ℚ`; `none` stands for the non-finite
results (`NaN`, `±Infinity`) that `Number.isFinite` rejects. -/

/-- A parsed OHLCV bar: each field the result of a `parseFloat` call (`none` =
non-finite), the volume `undefined` when the column is falsy or missing. -/
structure NumBar where
  t : String
  o : Option ℚ
  h : Option ℚ
  l : Option ℚ
  c : Option ℚ
  v : Option ℚ
deriving DecidableEq, Repr

/-- A `PriceHistory` as the providers build it (types.ts), reduced to the
fields the claims read. -/
structure NumPriceHistory where
  symbol : String
  bars : List NumBar
  adjusted : Bool
  dataSources : List String
  sourceSymbol : Option String
deriving DecidableEq, Repr

/-- One value object of the Alpha Vantage `"Time Series (Daily)"` record, with
the string fields `alphaVantageDaily` reads. -/
structure AvRow where
  o : String
  h : String
  l : String
  c : String
  v : String
deriving DecidableEq, Repr

/-- The fields of the Alpha Vantage JSON body that `alphaVantageDaily` reads;
`series = none` models an absent or non-object `"Time Series (Daily)"`. -/
structure AvJson where
  information : Option String
  note : Option String
  errorMessage : Option String
  series : Option (List (String × AvRow))
deriving DecidableEq, Repr

/-- The `?? {}` fallback object. -/
def AvJson.empty : AvJson := ⟨none, none, none, none⟩

/-- JS truthiness of an optional string field (`undefined` and `""` falsy). -/
def truthyStr (o : Option String) : Bool :=
  match o with
  | none => false
  | some s => s ≠ ""

/-- The sort comparator `(a, b) => a.t.localeCompare(b.t)` of
alphaVantage.ts:54, as the strict half: on the same-format ASCII date strings
the series carries, `localeCompare`'s order is code-unit lexicographic. -/
def dateLt (a b : NumBar) : Bool :=
  charsLt a.t.data b.t.data

/-- `alphaVantageDaily` (alphaVantage.ts:8-63): `null` when disabled, keyless,
throttled/errored, or without a series; otherwise bars are mapped, filtered to
finite closes and stably sorted ascending by date string. -/
def alphaVantageDaily (enabled : Bool) (key : String)
    (fetched : Except Unit AvJson) (parse : String → Option ℚ)
    (symbol : String) : Option NumPriceHistory :=
  if !enabled then none
  else if key = "" then none
  else
    let json := match fetched with
      | .ok j => j
      | .error _ => AvJson.empty
    if truthyStr json.information || truthyStr json.note
        || truthyStr json.errorMessage then none
    else
      match json.series with
      | none => none
      | some series =>
        let bars := sortStable dateLt
          ((series.map (fun e =>
              NumBar.mk e.1 (parse e.2.o) (parse e.2.h) (parse e.2.l)
                (parse e.2.c) (parse e.2.v))).filter
            (fun bar => bar.c.isSome))
        some ⟨symbol, bars, true, ["alphaVantage"], none⟩

/-- `SUFFIXES` (stooq.ts:5). -/
def SUFFIXES : List String := ["", ".us", ".de", ".uk", ".ln", ".pa", ".hk", ".jp"]

/-- `buildTickerVariants` (stooq.ts:7-19). -/
def buildTickerVariants (symbol : String) : List String :=
  let base := lowerStr symbol
  let explicit : List (String × List String) :=
    [("voo", ["voo.us", "voo"]),
     ("vwce", ["vwce.de", "vwce"]),
     ("spy", ["spy.us", "spy"]),
     ("iwda", ["iwda", "iwda.de", "iwda.nl"]),
     ("qqq", ["qqq.us", "qqq"])]
  let variants := (((explicit.find? (fun p => p.1 = base)).map (·.2)).getD
    (SUFFIXES.map (fun suffix => base ++ suffix)))
  dedupFirst variants

/-- Substring test, the model of `String.prototype.includes`. -/
def hasSubstr (needle hay : List Char) : Bool :=
  match hay with
  | [] => needle.isEmpty
  | _ :: rest => needle.isPrefixOf hay || hasSubstr needle rest

/-- Case-insensitive substring test, the model of `/No data/i.test(csv)`. -/
def hasSubstrCI (needle hay : List Char) : Bool :=
  match hay with
  | [] => needle.isEmpty
  | _ :: rest => ciPrefixOf needle hay || hasSubstrCI needle rest

/-- One CSV line to a bar (stooq.ts:76-86): destructure the comma-separated
columns (missing columns are `undefined`, whose `parseFloat` is `NaN`); the
volume stays `undefined` when its column is falsy. -/
def stooqLineBar (parse : String → Option ℚ) (line : String) : NumBar :=
  let fields := (sSplit ',' line.data).map String.mk
  let pf := fun (i : Nat) =>
    match fields.get? i with
    | some s => parse s
    | none => none
  { t := (fields.get? 0).getD ""
    o := pf 1
    h := pf 2
    l := pf 3
    c := pf 4
    v := match fields.get? 5 with
      | some s => if s = "" then none else parse s
      | none => none }

/-- The per-candidate CSV processing of `stooqDaily` (stooq.ts:54-91):
`none` means the loop continues with the next ticker variant. -/
def stooqParseCsv (parse : String → Option ℚ) (csv : String) :
    Option (List NumBar) :=
  if csv = "" || !hasSubstr "Date".data csv.data
      || hasSubstrCI "No data".data csv.data then none
  else
    match (sSplit '\n' (sTrim csv.data)).map String.mk with
    | [] => none
    | header :: rest =>
      if !startsWithStr header "Date" then none
      else
        let bars := (rest.map (stooqLineBar parse)).filter (fun bar => bar.c.isSome)
        if bars.length = 0 then none else some bars

/-- The candidate loop of `stooqDaily` (stooq.ts:27-103): a failed fetch or an
unusable CSV moves on to the next variant. -/
def stooqGo (parse : String → Option ℚ) (fetch : String → Except Unit String)
    (symbol : String) : List String → Option NumPriceHistory
  | [] => none
  | cand :: restCands =>
    match fetch cand with
    | .error _ => stooqGo parse fetch symbol restCands
    | .ok csv =>
      match stooqParseCsv parse csv with
      | none => stooqGo parse fetch symbol restCands
      | some bars => some ⟨symbol, bars, false, ["stooq"], some cand⟩

/-- `stooqDaily` (stooq.ts:25-106). -/
def stooqDaily (parse : String → Option ℚ) (fetch : String → Except Unit String)
    (symbol : String) : Option NumPriceHistory :=
  stooqGo parse fetch symbol (buildTickerVariants symbol)

/-- Model of JS `Number()`/`parseFloat` on plain decimal literals (optional
sign, digits, optional fractional part), the only shapes the repository's
concrete data contains; used to instantiate the abstract `parse` parameter at
concrete inputs. -/
def decLit (s : String) : Option ℚ :=
  let digitsVal := fun (cs : List Char) =>
    if cs.isEmpty then none
    else cs.foldl (fun acc c =>
      match acc with
      | none => none
      | some n => if c.isDigit then some (n * 10 + (c.toNat - 48)) else none)
      (some (0 : Nat))
  let (neg, body) :=
    match s.data with
    | '-' :: rest => (true, rest)
    | ds => (false, ds)
  let sign : Int := if neg then -1 else 1
  match sSplit '.' body with
  | [a] => (digitsVal a).map (fun n => Rat.divInt (sign * (n : Int)) 1)
  | [a, b] =>
    match digitsVal a, digitsVal b with
    | some n, some f =>
      some (Rat.divInt (sign * ((n * 10 ^ b.length + f : Nat) : Int))
        ((10 ^ b.length : Nat) : Int))
    | _, _ => none
  | _ => none

/-! ## The `rip2etf.snapshot` action handler (part of the plugin's index)

The handler around `buildSnapshot`: self-message guard, correlation-id cache,
and the catch-all failure result.  `buildSnapshot`'s outcome is a parameter
(`Except` error = the awaited promise rejected); the third component of the
result records whether `buildSnapshot` ran, i.e. whether any provider
fetching happened. -/

/-- Left-pad a digit string with zeros. -/
def padZeros (s : String) (n : Nat) : String :=
  String.mk (List.replicate (n - s.length) '0') ++ s

/-- `Number.prototype.toFixed(digits)` on a finite value: round to the nearest
multiple of `10^-digits`, ties away from the smaller value (ECMA-262 picks the
larger candidate integer). -/
def jsToFixed (digits : Nat) (q : ℚ) : String :=
  let n : Int := qFloor (qAdd (qMul q (Rat.divInt (Int.ofNat (10 ^ digits)) 1)) (Rat.divInt 1 2))
  let m := n.natAbs
  let base := m / 10 ^ digits
  let frac := m % 10 ^ digits
  let sign := if n < 0 then "-" else ""
  if digits = 0 then sign ++ toString base
  else sign ++ toString base ++ "." ++ padZeros (toString frac) digits

/-- `toFixed` lifted to the optional numbers (`NaN.toFixed` is `"NaN"`). -/
def jsToFixedOpt (digits : Nat) : Option ℚ → String
  | none => "NaN"
  | some q => jsToFixed digits q

/-- `formatPercent` (snapshot action): `undefined`/`NaN` (modelled as `none`)
renders as the placeholder `"n/d"`, a finite value as `toFixed(2)` with a
percent sign. -/
def formatPercent (value : Option ℚ) : String :=
  match value with
  | none => "n/d"
  | some v => jsToFixed 2 v ++ "%"

/-- `formatCurrency` (snapshot action): `undefined`/`NaN` renders as the
placeholder `"n/d"`, otherwise billions/millions are abbreviated. -/
def formatCurrency (value : Option ℚ) : String :=
  match value with
  | none => "n/d"
  | some v =>
    if 1000000000 ≤ v then jsToFixed 1 (qDiv v 1000000000) ++ "B$"
    else if 1000000 ≤ v then jsToFixed 1 (qDiv v 1000000) ++ "M$"
    else jsToFixed 0 v ++ "$"

/-- The fields of the returned `ActionResult` the claims read. -/
structure ActionResult where
  text : Option String
  success : Bool
  dataError : Option String
  dataReason : Option String
deriving DecidableEq, Repr

/-- The early return for self-authored messages. -/
def ignoredSelfResult : ActionResult :=
  ⟨none, false, some "IGNORED_SELF_MESSAGE", none⟩

/-- The catch-block result of the snapshot handler. -/
def snapshotFailureResult (reason : String) : ActionResult :=
  ⟨some ("Impossibile completare la snapshot per ora (" ++ reason
      ++ "). Riprova tra poco."),
    false, some reason, none⟩

/-- The handler-visible state: the correlation id the core stores on the
state, and the `__snapshotCache` record. -/
structure HandlerState where
  corrId : Option String
  cache : List (String × ActionResult)
deriving DecidableEq, Repr

/-- Modelled from the spec: `ensureCorrelationId` lives in `@elizaos/core`,
which is not under `src/` (only its callers are).  Per the spec, a correlation
id is "an opaque token grouping all artifacts produced while handling one
inbound chat message", cached "only for the lifetime of a single message's
correlation id": the call returns the id already stored on the state, or
derives one deterministically from the message and stores it. -/
def ensureCorrelationId (st : HandlerState) (msgId : String) :
    String × HandlerState :=
  match st.corrId with
  | some c => (c, st)
  | none => (msgId, { st with corrId := some msgId })

/-- `cache[cacheKey]` lookup. -/
def cacheLookup (cache : List (String × ActionResult)) (k : String) :
    Option ActionResult :=
  (cache.find? (fun p => p.1 = k)).map (·.2)

/-- `${message.roomId ?? "room"}:${corrId}`. -/
def snapshotCacheKey (roomId : Option String) (corrId : String) : String :=
  roomId.getD "room" ++ ":" ++ corrId

/-- The `snapshotAction.handler` (around `buildSnapshot`): self-message guard,
correlation-id-keyed cache hit, otherwise build; a successful build is cached,
a rejected build becomes the failure `ActionResult`.  The final `Bool` records
whether `buildSnapshot` ran. -/
def snapshotHandler (agentMsg : Bool) (roomId : Option String) (msgId : String)
    (build : Except String ActionResult) (st : HandlerState) :
    ActionResult × HandlerState × Bool :=
  if agentMsg then (ignoredSelfResult, st, false)
  else
    let (corrId, st1) := ensureCorrelationId st msgId
    let cacheKey := snapshotCacheKey roomId corrId
    match cacheLookup st1.cache cacheKey with
    | some r => (r, st1, false)
    | none =>
      match build with
      | .ok r => (r, { st1 with cache := st1.cache ++ [(cacheKey, r)] }, true)
      | .error reason => (snapshotFailureResult reason, st1, true)

/-! ## Hyperliquid actions

The `priceCheck` handler (priceCheck.ts:21-120) after the model call: finding
the token and market, formatting the callback text.  The mocked SDK data are
the literals of `__tests__/test-utils.ts`. -/

/-- Option-valued JS-number arithmetic: `none` is a non-finite value (the
handler's inputs make `0`-denominator and `NaN` cases unreachable in the
claims below). -/
def jsSub : Option ℚ → Option ℚ → Option ℚ
  | some a, some b => some (qSub a b)
  | _, _ => none

def jsDiv : Option ℚ → Option ℚ → Option ℚ
  | some a, some b => if b = 0 then none else some (qDiv a b)
  | _, _ => none

def jsMul : Option ℚ → Option ℚ → Option ℚ
  | some a, some b => some (qMul a b)
  | _, _ => none

/-- `TokenInfo` of the SDK declaration (types.ts module declaration). -/
structure TokenInfo where
  name : String
  szDecimals : Nat
deriving DecidableEq, Repr

/-- `AssetContext` of the SDK declaration: `midPx` nullable. -/
structure AssetCtx where
  coin : String
  midPx : Option String
  prevDayPx : String
  dayNtlVlm : String
deriving DecidableEq, Repr

/-- The `priceCheck.handler` after symbol extraction (priceCheck.ts:44-119):
`parsedSymbol` is the model-extracted symbol (`none` = absent), the result is
the returned boolean and the text the callback was invoked with; thrown
`HyperliquidError`s become the catch-block's callback text and `false`. -/
def priceCheckHandler (parse : String → Option ℚ) (parsedSymbol : Option String)
    (tokens : List TokenInfo) (assetCtxs : List AssetCtx) :
    Bool × Option String :=
  let errOut := fun (msg : String) =>
    (false, some ("Error checking price: " ++ msg))
  match parsedSymbol with
  | none => errOut "Could not determine which token price to check"
  | some sym =>
    if sym = "" then errOut "Could not determine which token price to check"
    else
      match tokens.findIdx? (fun t => upperStr t.name = upperStr sym) with
      | none => errOut ("Could not find token " ++ sym)
      | some _ =>
        match assetCtxs.find? (fun ctx => ctx.coin = sym ++ "-SPOT") with
        | none => errOut ("Could not find market for " ++ sym)
        | some marketCtx =>
          match marketCtx.midPx with
          | none => errOut ("Could not get market price for " ++ sym)
          | some mid =>
            if mid = "" then errOut ("Could not get market price for " ++ sym)
            else
              let price := parse mid
              let prev := parse marketCtx.prevDayPx
              let dayChange :=
                jsToFixedOpt 2 (jsMul (jsDiv (jsSub price prev) prev) (some 100))
              let volume := jsToFixedOpt 2 (parse marketCtx.dayNtlVlm)
              (true, some (sym ++ " price: " ++ jsToFixedOpt 2 price
                ++ " USDC (24h change: " ++ dayChange ++ "%, volume: "
                ++ volume ++ " USDC)"))

/-- The mocked token list of `mockHyperliquidSdk` (test-utils). -/
def mockTokens : List TokenInfo :=
  [⟨"HYPE", 2⟩, ⟨"ETH", 4⟩, ⟨"PIP", 2⟩]

/-- The mocked asset contexts of `mockHyperliquidSdk` (test-utils). -/
def mockAssetCtxs : List AssetCtx :=
  [⟨"HYPE-SPOT", some "20.50", "20.00", "1000000"⟩,
   ⟨"ETH-SPOT", some "3500.00", "3400.00", "50000000"⟩,
   ⟨"PIP-SPOT", some "19.73", "20.10", "1053445.75"⟩]

/-- The trade parameters the model extracts for the spot trade action
(per `spotTradeTemplate`): coin, side, size, optional limit price. -/
structure SpotParams where
  coin : String
  is_buy : Bool
  sz : ℚ
  limit_px : Option ℚ
deriving DecidableEq, Repr

inductive OrderKind where
  | market : OrderKind
  | limitGtc : OrderKind
deriving DecidableEq, Repr

/-- The order request handed to `exchange.placeOrder` (fields of the SDK's
`OrderRequest` the claims read). -/
structure OrderRequest where
  coin : String
  is_buy : Bool
  sz : ℚ
  order_type : OrderKind
deriving DecidableEq, Repr

structure OrderStatus where
  px : Option String
  error : Option String
deriving DecidableEq, Repr

structure OrderResponse where
  statuses : List OrderStatus
deriving DecidableEq, Repr

/-- The mocked `exchange.placeOrder` resolution of `mockHyperliquidSdk`. -/
def mockOrderResponse : OrderResponse :=
  ⟨[⟨some "20.50", none⟩]⟩

/-- Modelled from the spec: the spot trade action source
(`packages/plugin-hyperliquid/src/actions/spotTrade.ts`) is not under `src/`;
only its tests and its prompt template are.  Modelled from the spec sentence
"text 'Buy 1 HYPE' against a mocked SDK produces a market order call with
sz=1, is_buy=true" and the test expectations: resolve the token and the
`COIN-SPOT` market, validate limit prices against the mid price, place a
market order when no limit price was extracted (Gtc limit order otherwise),
fail on an exchange-reported per-status error, otherwise report success.
Returns (handler result, the order passed to `placeOrder` if any, callback
text). -/
def spotTradeHandler (parsed : Option SpotParams) (tokens : List TokenInfo)
    (assetCtxs : List AssetCtx) (parse : String → Option ℚ)
    (exchangeResult : OrderResponse) :
    Bool × Option OrderRequest × Option String :=
  let errOut := fun (msg : String) =>
    ((false, none, some ("Error placing spot order: " ++ msg)) :
      Bool × Option OrderRequest × Option String)
  match parsed with
  | none => errOut "Could not parse trading parameters"
  | some p =>
    match tokens.find? (fun t => upperStr t.name = upperStr p.coin) with
    | none => errOut ("Could not find token " ++ p.coin)
    | some _ =>
      match assetCtxs.find? (fun ctx => ctx.coin = p.coin ++ "-SPOT") with
      | none => errOut ("Could not find market for " ++ p.coin)
      | some ctx =>
        let mid := ctx.midPx.bind parse
        let place := fun (kind : OrderKind) (kindWord : String) =>
          let order : OrderRequest := ⟨p.coin ++ "-SPOT", p.is_buy, p.sz, kind⟩
          match (exchangeResult.statuses.head?).bind (·.error) with
          | some e => ((false, some order, some ("Error placing spot order: " ++ e)) :
              Bool × Option OrderRequest × Option String)
          | none =>
            (true, some order,
              some ("Successfully placed a " ++ kindWord ++ " order to "
                ++ (if p.is_buy then "buy" else "sell") ++ " "
                ++ jsToFixedOpt 0 (some p.sz) ++ " " ++ p.coin))
        match p.limit_px with
        | none => place .market "market"
        | some px =>
          match mid with
          | none => errOut ("Could not get market price for " ++ p.coin)
          | some m =>
            if p.is_buy ∧ px > m then
              errOut "Cannot place buy limit order above market price"
            else if ¬p.is_buy ∧ px < m then
              errOut "Cannot place sell limit order below market price"
            else place .limitGtc "limit"

/-! ## Concrete inputs used by counterexamples and witnesses -/

/-- A single series whose close at its only (hence first common) date is `0`. -/
def zeroCloseSeries : List PriceHistory :=
  [⟨"A", [⟨"2024-01-01", 0⟩], ["stooq"]⟩]

/-- Two series with no common date at all: the first has no bars, so the
`reduce` restarts from the second series' dates. -/
def disjointSeries : List PriceHistory :=
  [⟨"A", [], []⟩, ⟨"B", [⟨"2024-01-01", 5⟩], []⟩]

/-- A well-behaved single series for witnesses. -/
def witnessSeries : List PriceHistory :=
  [⟨"VOO", [⟨"2024-01-01", 2⟩, ⟨"2024-01-02", 3⟩], ["stooq"]⟩]

/-! ## Generic helper lemmas -/

theorem dedupFirst_go {α : Type} [DecidableEq α] (xs : List α) :
    ∀ acc : List α, acc.Nodup →
      (xs.foldl addToSet acc).Nodup ∧
      ∀ y, y ∈ xs.foldl addToSet acc ↔ y ∈ acc ∨ y ∈ xs := by
  induction xs with
  | nil => intro acc h; simpa using h
  | cons x xs ih =>
    intro acc h
    by_cases hx : x ∈ acc
    · have hstep : addToSet acc x = acc := by rw [addToSet, if_pos hx]
      have := ih acc h
      simp only [List.foldl_cons, hstep]
      refine ⟨this.1, fun y => ?_⟩
      rw [this.2 y]
      constructor
      · rintro (hy | hy)
        · exact Or.inl hy
        · exact Or.inr (List.mem_cons_of_mem _ hy)
      · rintro (hy | hy)
        · exact Or.inl hy
        · rcases List.mem_cons.mp hy with rfl | hy
          · exact Or.inl hx
          · exact Or.inr hy
    · have hstep : addToSet acc x = acc ++ [x] := by rw [addToSet, if_neg hx]
      have hacc : (acc ++ [x]).Nodup := by
        rw [List.nodup_append]
        exact ⟨h, List.nodup_singleton x, by
          intro a ha hb
          rcases List.mem_singleton.mp hb with rfl
          exact hx ha⟩
      have := ih (acc ++ [x]) hacc
      simp only [List.foldl_cons, hstep]
      refine ⟨this.1, fun y => ?_⟩
      rw [this.2 y]
      simp only [List.mem_append, List.mem_singleton, List.mem_cons]
      tauto

theorem nodup_dedupFirst {α : Type} [DecidableEq α] (xs : List α) :
    (dedupFirst xs).Nodup :=
  (dedupFirst_go xs [] List.nodup_nil).1

theorem mem_dedupFirst {α : Type} [DecidableEq α] (xs : List α) (y : α) :
    y ∈ dedupFirst xs ↔ y ∈ xs := by
  rw [dedupFirst, (dedupFirst_go xs [] List.nodup_nil).2 y]
  simp

theorem foldl_filterMap {α β γ : Type} (g : α → Option β) (f : γ → β → γ) :
    ∀ (xs : List α) (init : γ),
      (xs.filterMap g).foldl f init =
        xs.foldl (fun acc x =>
          match g x with
          | none => acc
          | some y => f acc y) init := by
  intro xs
  induction xs with
  | nil => intro init; rfl
  | cons x xs ih =>
    intro init
    rw [List.filterMap_cons]
    cases hx : g x with
    | none => simp only [List.foldl_cons, hx]; exact ih init
    | some y => simp only [List.foldl_cons, hx]; exact ih (f init y)

/-! ## C1 / C8 — `alignAndRebase` -/

theorem foldl_commonStep_spec (rest : List PriceHistory) :
    ∀ (acc : List String) (d : String), d ∈ acc →
      (∀ ph ∈ rest, d ∈ barDates ph) →
      d ∈ rest.foldl commonStep acc ∧
      ∀ x ∈ rest.foldl commonStep acc, x ∈ acc ∧ ∀ ph ∈ rest, x ∈ barDates ph := by
  induction rest with
  | nil =>
    intro acc d hd _
    exact ⟨hd, fun x hx => ⟨hx, by simp⟩⟩
  | cons ph rest ih =>
    intro acc d hd hall
    have hacc_ne : acc.length ≠ 0 := by
      intro h0
      rw [List.length_eq_zero] at h0
      subst h0
      exact absurd hd (List.not_mem_nil d)
    have hstep : commonStep acc ph = acc.filter (fun x => (barDates ph).contains x) := by
      simp [commonStep, hacc_ne]
    have hdph : d ∈ barDates ph := hall ph (List.mem_cons_self ph rest)
    have hd2 : d ∈ acc.filter (fun x => (barDates ph).contains x) := by
      rw [List.mem_filter]
      exact ⟨hd, by simpa using hdph⟩
    have hall2 : ∀ q ∈ rest, d ∈ barDates q := fun q hq =>
      hall q (List.mem_cons_of_mem ph hq)
    have hmain := ih (acc.filter (fun x => (barDates ph).contains x)) d hd2 hall2
    rw [List.foldl_cons, hstep]
    refine ⟨hmain.1, fun x hx => ?_⟩
    obtain ⟨hx1, hx2⟩ := hmain.2 x hx
    rw [List.mem_filter] at hx1
    refine ⟨hx1.1, fun q hq => ?_⟩
    rcases List.mem_cons.mp hq with rfl | hq
    · simpa using hx1.2
    · exact hx2 q hq

theorem commonDates_spec (s : PriceHistory) (rest : List PriceHistory)
    (d : String) (hd : d ∈ barDates s) (hrest : ∀ ph ∈ rest, d ∈ barDates ph) :
    d ∈ commonDates (s :: rest) ∧
    ∀ x ∈ commonDates (s :: rest), x ∈ barDates s ∧ ∀ ph ∈ rest, x ∈ barDates ph := by
  have hfirst : commonStep [] s = barDates s := by simp [commonStep]
  rw [commonDates, List.foldl_cons, hfirst]
  exact foldl_commonStep_spec rest (barDates s) d hd hrest

theorem mem_zip_map {α β : Type} (f : α → β) (l : List α) :
    ∀ p ∈ l.zip (l.map f), p.2 = f p.1 := by
  induction l with
  | nil => intro p hp; simp at hp
  | cons x xs ih =>
    intro p hp
    rw [List.map_cons, List.zip_cons_cons] at hp
    rcases List.mem_cons.mp hp with rfl | hp
    · rfl
    · exact ih p hp

theorem mem_map_zip {α β : Type} (f : α → β) (l : List α) :
    ∀ p ∈ (l.map f).zip l, p.1 = f p.2 := by
  induction l with
  | nil => intro p hp; simp at hp
  | cons x xs ih =>
    intro p hp
    rw [List.map_cons, List.zip_cons_cons] at hp
    rcases List.mem_cons.mp hp with rfl | hp
    · rfl
    · exact ih p hp

/-- The non-empty case of `alignAndRebase`, written out. -/
theorem alignAndRebase_ne (series : List PriceHistory)
    (hne : ¬series.isEmpty) :
    alignAndRebase series =
      ⟨commonDates series,
        series.map (fun ph =>
          RSeries.mk ph.symbol ((commonDates series).map
            (fun dd => RPoint.mk dd
              (rebaseVal (barLookup ph.bars dd)
                (baselineOf ph.bars (commonDates series)))))),
        dedupFirst (series.flatMap (·.dataSources))⟩ := by
  rw [alignAndRebase]
  simp [hne]

/-- C1 (amended): with a non-empty series list sharing a common date, the
rebased point at the first common date is exactly `num 100` for every series
whose close there is non-zero (when that close is `0` the code yields `NaN`
instead — see the counterexample). -/
theorem alignAndRebase_first_common_is_100 (series : List PriceHistory)
    (d : String) (hne : series ≠ [])
    (hcommon : ∀ ph ∈ series, d ∈ barDates ph) :
    ∃ d0, (alignAndRebase series).dates.head? = some d0 ∧
      ∀ p ∈ series.zip (alignAndRebase series).table, ∀ c0 : ℚ,
        barLookup p.1.bars d0 = some c0 → c0 ≠ 0 →
          p.2.points.head? = some ⟨d0, RVal.num 100⟩ := by
  obtain ⟨s, rest, rfl⟩ := List.exists_cons_of_ne_nil hne
  have hspec := commonDates_spec s rest d (hcommon s (List.mem_cons_self s rest))
    (fun ph hph => hcommon ph (List.mem_cons_of_mem s hph))
  have hcds_ne : commonDates (s :: rest) ≠ [] := by
    intro h0
    rw [h0] at hspec
    exact absurd hspec.1 (List.not_mem_nil d)
  obtain ⟨d0, cs, hcds⟩ := List.exists_cons_of_ne_nil hcds_ne
  have halign := alignAndRebase_ne (s :: rest) (by simp)
  have htab : (alignAndRebase (s :: rest)).table =
      (s :: rest).map (fun ph =>
        RSeries.mk ph.symbol ((commonDates (s :: rest)).map
          (fun dd => RPoint.mk dd
            (rebaseVal (barLookup ph.bars dd)
              (baselineOf ph.bars (commonDates (s :: rest))))))) := by
    rw [halign]
  refine ⟨d0, by rw [halign, hcds]; rfl, ?_⟩
  intro p hp c0 hlk hc0
  rw [htab] at hp
  have hp2 := mem_zip_map _ (s :: rest) p hp
  have hpoints : p.2.points = (commonDates (s :: rest)).map
      (fun dd => RPoint.mk dd
        (rebaseVal (barLookup p.1.bars dd)
          (baselineOf p.1.bars (commonDates (s :: rest))))) := by
    rw [hp2]
  have hbase : baselineOf p.1.bars (commonDates (s :: rest)) = c0 := by
    rw [baselineOf, hcds]
    simp [hlk]
  rw [hpoints, hbase, hcds, List.map_cons, List.head?_cons, hlk]
  have hval : rebaseVal (some c0) c0 = RVal.num 100 := by
    rw [rebaseVal]
    simp only [hc0, if_neg hc0, if_false]
    rw [qDiv_eq, qMul_eq, div_self hc0, one_mul]
  rw [hval]

/-- C1 witness: the amended theorem applied to a concrete series whose close
at the first common date is `2 ≠ 0`. -/
theorem alignAndRebase_first_common_is_100_witness :
    ((alignAndRebase witnessSeries).table.map (fun s => s.points.head?)) =
      [some ⟨"2024-01-01", RVal.num 100⟩] := by
  obtain ⟨d0, hd0, h⟩ := alignAndRebase_first_common_is_100 witnessSeries
    "2024-01-01" (by decide) (by decide)
  have hdd : d0 = "2024-01-01" := by
    have hconc : (alignAndRebase witnessSeries).dates.head? = some "2024-01-01" := by
      decide
    rw [hconc] at hd0
    exact (Option.some_inj.mp hd0).symm
  subst hdd
  have hpair := h (witnessSeries.get ⟨0, by decide⟩,
    (alignAndRebase witnessSeries).table.get ⟨0, by decide⟩)
    (by decide) 2 (by decide) (by decide)
  have hmap : ((alignAndRebase witnessSeries).table.map (fun s => s.points.head?)) =
      [((alignAndRebase witnessSeries).table.get ⟨0, by decide⟩).points.head?] := by
    decide
  rw [hmap, hpair]

/-- C1 counterexample: a series whose close at the (existing) first common
date is `0` gets `NaN`, not `100`. -/
theorem alignAndRebase_zero_close_counterexample :
    zeroCloseSeries ≠ [] ∧
    (∀ ph ∈ zeroCloseSeries, "2024-01-01" ∈ barDates ph) ∧
    (alignAndRebase zeroCloseSeries).dates.head? = some "2024-01-01" ∧
    (alignAndRebase zeroCloseSeries).table.map (fun s => s.points.map (·.v)) =
      [[RVal.nan]] := by
  refine ⟨by decide, by decide, by decide, by decide⟩

/-- C8 (amended): the table has one entry per input series, in input order,
and each entry's points carry exactly the returned date axis index by index;
when the returned axis is empty all points lists are empty.  (The returned
axis itself can be non-empty even though the true date intersection is empty —
see the counterexample.) -/
theorem alignAndRebase_table_aligned (series : List PriceHistory) :
    (alignAndRebase series).table.length = series.length ∧
    (∀ p ∈ series.zip (alignAndRebase series).table,
      p.2.symbol = p.1.symbol ∧
      p.2.points.length = (alignAndRebase series).dates.length ∧
      ∀ q ∈ p.2.points.zip (alignAndRebase series).dates, q.1.t = q.2) ∧
    ((alignAndRebase series).dates = [] →
      ∀ s ∈ (alignAndRebase series).table, s.points = []) := by
  by_cases hne : series.isEmpty
  · rw [List.isEmpty_iff] at hne
    subst hne
    refine ⟨by rfl, ?_, by intro _ s hs; simp [alignAndRebase] at hs⟩
    intro p hp
    simp [alignAndRebase] at hp
  · have halign := alignAndRebase_ne series hne
    rw [halign]
    refine ⟨by simp, ?_, ?_⟩
    · intro p hp
      have hp2 := mem_zip_map _ series p hp
      rw [hp2]
      refine ⟨rfl, by simp, ?_⟩
      intro q hq
      simp only at hq
      have hq2 := mem_map_zip
        (fun dd => RPoint.mk dd
          (rebaseVal (barLookup p.1.bars dd)
            (baselineOf p.1.bars (commonDates series))))
        (commonDates series) q hq
      rw [hq2]
    · intro hdates s hs
      simp only at hdates hs
      rw [List.mem_map] at hs
      obtain ⟨ph, _, rfl⟩ := hs
      simp only
      rw [hdates]
      rfl

/-- C8 witness: the amended theorem applied to a concrete one-series input. -/
theorem alignAndRebase_table_aligned_witness :
    (alignAndRebase witnessSeries).table.length = witnessSeries.length ∧
    ((alignAndRebase witnessSeries).table.get ⟨0, by decide⟩).points.length =
      (alignAndRebase witnessSeries).dates.length := by
  obtain ⟨h1, h2, _⟩ := alignAndRebase_table_aligned witnessSeries
  have hp := h2 (witnessSeries.get ⟨0, by decide⟩,
    (alignAndRebase witnessSeries).table.get ⟨0, by decide⟩) (by decide)
  exact ⟨h1, hp.2.1⟩

/-- C8 counterexample: the first series has no bars at all (so no date is
common to all series), yet the returned axis is the second series' dates and
every points list has length 1, not 0. -/
theorem alignAndRebase_empty_intersection_counterexample :
    barDates ⟨"A", [], []⟩ = [] ∧
    (⟨"A", [], []⟩ : PriceHistory) ∈ disjointSeries ∧
    (alignAndRebase disjointSeries).dates = ["2024-01-01"] ∧
    (alignAndRebase disjointSeries).table.map (fun s => s.points.length) =
      [1, 1] := by
  refine ⟨by decide, by decide, by decide, by decide⟩

/-! ## C2 — `reconcileOverview` -/

theorem lookupAssoc_append_single (fl : List (String × JsVal)) (k1 : String)
    (v1 : JsVal) (k : String) :
    lookupAssoc (fl ++ [(k1, v1)]) k =
      (lookupAssoc fl k).or (if k1 = k then some v1 else none) := by
  rw [lookupAssoc, lookupAssoc, List.find?_append]
  cases hfl : List.find? (fun p => decide (p.1 = k)) fl with
  | some p => rfl
  | none =>
    by_cases hk : k1 = k
    · simp [List.find?_singleton, hk]
    · simp [List.find?_singleton, hk]

theorem setIfAbsent_of_isSome (fl : List (String × JsVal)) (k1 : String)
    (v1 : JsVal) (h : (lookupAssoc fl k1).isSome) :
    setIfAbsent fl k1 v1 = fl := by
  rw [setIfAbsent, if_pos h]

theorem setIfAbsent_of_none (fl : List (String × JsVal)) (k1 : String)
    (v1 : JsVal) (h : lookupAssoc fl k1 = none) :
    setIfAbsent fl k1 v1 = fl ++ [(k1, v1)] := by
  rw [setIfAbsent, if_neg (by simp [h])]

theorem lookup_mergeEntries (es : List (String × JsVal)) :
    ∀ (fl : List (String × JsVal)) (k : String),
      lookupAssoc (mergeEntries fl es) k =
        (lookupAssoc fl k).or
          ((es.find? (fun p => p.1 = k ∧ ¬p.2.isNullish)).map (·.2)) := by
  induction es with
  | nil =>
    intro fl k
    rw [mergeEntries, List.foldl_nil, List.find?_nil]
    simp
  | cons e es ih =>
    intro fl k
    have hstep : mergeEntries fl (e :: es) =
        mergeEntries (if e.2.isNullish then fl else setIfAbsent fl e.1 e.2) es := by
      rw [mergeEntries, mergeEntries, List.foldl_cons]
    by_cases hnull : e.2.isNullish = true
    · rw [hstep, if_pos hnull, ih fl k,
        List.find?_cons_of_neg _ (by simp [hnull])]
    · rw [hstep, if_neg hnull]
      by_cases hk : e.1 = k
      · rw [List.find?_cons_of_pos _ (by simp [hk, hnull])]
        cases hfl : lookupAssoc fl e.1 with
        | some w =>
          rw [setIfAbsent_of_isSome fl e.1 e.2 (by rw [hfl]; rfl), ih fl k]
          rw [← hk, hfl]
          rfl
        | none =>
          rw [setIfAbsent_of_none fl e.1 e.2 hfl, ih _ k,
            lookupAssoc_append_single, if_pos hk]
          rw [← hk, hfl, Option.none_or]
          rfl
      · rw [List.find?_cons_of_neg _ (by simp [hk])]
        cases hfl : lookupAssoc fl e.1 with
        | some w =>
          rw [setIfAbsent_of_isSome fl e.1 e.2 (by rw [hfl]; rfl), ih fl k]
        | none =>
          rw [setIfAbsent_of_none fl e.1 e.2 hfl, ih _ k,
            lookupAssoc_append_single, if_neg hk, Option.or_none]

theorem lookup_foldl_reconcileStep (frags : List (Option Fragment)) :
    ∀ (acc : Overview) (k : String),
      lookupAssoc (frags.foldl reconcileStep acc).fields k =
        (lookupAssoc acc.fields k).or
          (((entryStream frags).find?
            (fun p => p.1 = k ∧ ¬p.2.isNullish)).map (·.2)) := by
  induction frags with
  | nil =>
    intro acc k
    rw [List.foldl_nil, entryStream]
    simp
  | cons frag frags ih =>
    intro acc k
    rw [List.foldl_cons]
    cases frag with
    | none =>
      rw [ih (reconcileStep acc none) k]
      have hstream : entryStream (none :: frags) = entryStream frags := by
        rw [entryStream, entryStream]
        rfl
      rw [hstream]
      rfl
    | some frag =>
      rw [ih (reconcileStep acc (some frag)) k]
      have hfields : (reconcileStep acc (some frag)).fields =
          mergeEntries acc.fields (frag.filter (fun p => p.1 ≠ "dataSources")) := by
        rfl
      rw [hfields, lookup_mergeEntries, Option.or_assoc]
      have hstream : entryStream (some frag :: frags) =
          frag.filter (fun p => p.1 ≠ "dataSources") ++ entryStream frags := by
        rw [entryStream, entryStream]
        rfl
      rw [hstream, List.find?_append]
      cases h1 : List.find? (fun p => decide (p.1 = k ∧ ¬p.2.isNullish))
        (frag.filter (fun p => p.1 ≠ "dataSources")) with
      | some p => rfl
      | none => rfl

theorem reconcileOverview_fields (symbol : String)
    (frags : List (Option Fragment)) :
    (reconcileOverview symbol frags).fields =
      (frags.foldl reconcileStep ⟨[("symbol", .vstr symbol)], []⟩).fields := rfl

theorem reconcileOverview_lookup_symbol (symbol : String)
    (frags : List (Option Fragment)) :
    lookupAssoc (reconcileOverview symbol frags).fields "symbol" =
      some (.vstr symbol) := by
  rw [reconcileOverview_fields, lookup_foldl_reconcileStep]
  rfl

/-- C2 (amended): every field other than `symbol` (which `reconcileOverview`
fixes to the caller-supplied symbol regardless of the fragments — see the
counterexample) carries the first non-null value offered in fragment order; a
field once set is never overwritten by later fragments; the merged
`dataSources` list has no duplicates. -/
theorem reconcileOverview_first_non_null (symbol : String)
    (frags : List (Option Fragment)) :
    (∀ k, k ≠ "symbol" →
      lookupAssoc (reconcileOverview symbol frags).fields k =
        firstNonNull k frags) ∧
    (∀ (k : String) (v : JsVal) (more : List (Option Fragment)),
      lookupAssoc (reconcileOverview symbol frags).fields k = some v →
        lookupAssoc (reconcileOverview symbol (frags ++ more)).fields k = some v) ∧
    (reconcileOverview symbol frags).dataSources.Nodup := by
  have hmain : ∀ (fs : List (Option Fragment)) (k : String), k ≠ "symbol" →
      lookupAssoc (reconcileOverview symbol fs).fields k = firstNonNull k fs := by
    intro fs k hk
    rw [reconcileOverview_fields, lookup_foldl_reconcileStep, firstNonNull]
    have hinit : lookupAssoc [("symbol", JsVal.vstr symbol)] k = none := by
      simp [lookupAssoc, List.find?_singleton, Ne.symm hk]
    rw [hinit, Option.none_or]
  refine ⟨hmain frags, ?_, ?_⟩
  · intro k v more hv
    by_cases hk : k = "symbol"
    · subst hk
      rw [reconcileOverview_lookup_symbol] at hv
      rw [reconcileOverview_lookup_symbol]
      exact hv
    · rw [hmain frags k hk, firstNonNull] at hv
      rw [hmain (frags ++ more) k hk, firstNonNull]
      have hstream : entryStream (frags ++ more) =
          entryStream frags ++ entryStream more := by
        rw [entryStream, entryStream, entryStream, List.filterMap_append,
          List.flatMap_append]
      rw [hstream, List.find?_append]
      cases h1 : List.find? (fun p => decide (p.1 = k ∧ ¬p.2.isNullish))
        (entryStream frags) with
      | some p =>
        rw [h1] at hv
        exact hv
      | none =>
        rw [h1] at hv
        exact absurd hv (by simp)
  · have : (reconcileOverview symbol frags).dataSources =
        dedupFirst (frags.foldl reconcileStep
          ⟨[("symbol", .vstr symbol)], []⟩).dataSources := rfl
    rw [this]
    exact nodup_dedupFirst _

/-- The fragment list of the C2 counterexample: one fragment that offers its
own `symbol` value. -/
def symbolFrags : List (Option Fragment) :=
  [some [("symbol", JsVal.vstr "B")]]

/-- C2 counterexample: the `symbol` field does not follow
first-non-null-in-fragment-order — the caller's symbol wins over the
fragment's. -/
theorem reconcileOverview_symbol_counterexample :
    firstNonNull "symbol" symbolFrags = some (JsVal.vstr "B") ∧
    lookupAssoc (reconcileOverview "A" symbolFrags).fields "symbol" =
      some (JsVal.vstr "A") ∧
    JsVal.vstr "A" ≠ JsVal.vstr "B" := by
  refine ⟨by decide, by decide, by decide⟩

/-- The fragment list of the C2 witness. -/
def witnessFrags : List (Option Fragment) :=
  [some [("issuer", JsVal.vnull), ("category", JsVal.vstr "Equity")],
   none,
   some [("issuer", JsVal.vstr "Vanguard"),
         ("dataSources", JsVal.varr ["fmp", "fmp", "finnhub"])]]

/-- C2 witness: the amended theorem applied to concrete fragments. -/
theorem reconcileOverview_first_non_null_witness :
    lookupAssoc (reconcileOverview "VOO" witnessFrags).fields "issuer" =
      firstNonNull "issuer" witnessFrags ∧
    (reconcileOverview "VOO" witnessFrags).dataSources.Nodup := by
  have h := reconcileOverview_first_non_null "VOO" witnessFrags
  exact ⟨h.1 "issuer" (by decide), h.2.2⟩

/-! ## C3 / C7 — symbol extraction -/

theorem foldl_extractStep (xs : List String) :
    ∀ init, xs.foldl extractStep init =
      (xs.filterMap tokenSymbol).foldl addToSet init := by
  induction xs with
  | nil => intro init; rfl
  | cons x xs ih =>
    intro init
    rw [List.filterMap_cons, List.foldl_cons]
    cases hx : tokenSymbol x with
    | none =>
      rw [extractStep, hx]
      exact ih init
    | some y =>
      rw [extractStep, hx, List.foldl_cons]
      exact ih (addToSet init y)

/-- `extractFromText` on an empty set is exactly first-occurrence
deduplication of the raw per-match symbol stream. -/
theorem extract_eq_dedup (text : String) :
    extractList text = dedupFirst (extractRaw text) := by
  by_cases htext : text = ""
  · subst htext
    rfl
  · rw [extractList, extractFromText, if_neg htext, extractRaw, if_neg htext,
      dedupFirst, foldl_extractStep]

/-- C7 (amended): extraction from a fixed text is deterministic by
construction (a pure function of the text), its result is the raw symbol
stream deduplicated in first-appearance order, hence duplicate-free; and the
text path of `collectSymbols` computes exactly this extraction.  (Re-running
the extraction on the space-joined output is NOT always the identity — see
the counterexample.) -/
theorem extract_dedup_order (text : String) :
    extractList text = dedupFirst (extractRaw text) ∧
    (extractList text).Nodup ∧
    collectSymbols (some ⟨none, [], some text⟩) none none = extractList text := by
  refine ⟨extract_eq_dedup text, ?_, ?_⟩
  · rw [extract_eq_dedup text]
    exact nodup_dedupFirst _
  · have hms : messageSymbolsOf (some ⟨none, [], some text⟩) =
        extractFromText [] text := rfl
    rw [collectSymbols, hms]
    by_cases hemp : (extractFromText [] text).length > 0
    · rw [if_pos hemp]
      rfl
    · rw [if_neg hemp, extractList]
      have hnil : extractFromText [] text = [] := by
        cases hx : extractFromText [] text with
        | nil => rfl
        | cons a as => rw [hx] at hemp; simp at hemp
      rw [hnil]
      rfl

/-- C7 counterexample: extraction is not idempotent.  From
`"ABCDOW. JONESX"` the extractor returns `["ABCDOW", "JONESX"]`; re-running it
on the space-joined output `"ABCDOW JONESX"` triggers the `"DOW JONES"`
phrase alias and yields `["ABC"]`. -/
theorem extract_idempotence_counterexample :
    extractList "ABCDOW. JONESX" = ["ABCDOW", "JONESX"] ∧
    extractList (String.intercalate " " (extractList "ABCDOW. JONESX")) =
      ["ABC"] ∧
    (["ABC"] : List String) ≠ ["ABCDOW", "JONESX"] := by
  refine ⟨by decide, by decide, by decide⟩

/-- C3 (amended): in free-text extraction a regex-matched token is dropped on
length grounds exactly when its `[\w.]`-stripped form is shorter than 3
characters (the source checks `token.length < 3`, not `< 2`); every matched
token of stripped length ≥ 3 that is no stop word before or after aliasing
contributes its aliased symbol to the result. -/
theorem extract_length_threshold (raw : String) :
    ((cleanTok raw).length < 3 → tokenSymbol raw = none) ∧
    (3 ≤ (cleanTok raw).length →
      upperStr (cleanTok raw) ∉ STOP_WORDS →
      aliasOf (upperStr (cleanTok raw)) ∉ STOP_WORDS →
      tokenSymbol raw = some (aliasOf (upperStr (cleanTok raw)))) ∧
    (∀ (text sym : String), raw ∈ scanMatches (normalizePhrases text) →
      tokenSymbol raw = some sym → sym ∈ extractList text) := by
  refine ⟨?_, ?_, ?_⟩
  · intro hlen
    rw [tokenSymbol]
    simp [hlen]
  · intro hlen hsw1 hsw2
    rw [tokenSymbol]
    have hc : ((cleanTok raw).length = 0 || (cleanTok raw).length < 3) = false := by
      simp
      omega
    rw [hc]
    simp only [Bool.false_eq_true, if_false, if_neg hsw1, if_neg hsw2]
  · intro text sym hmem hts
    by_cases htext : text = ""
    · subst htext
      have hscan : scanMatches (normalizePhrases "") = [] := by decide
      rw [hscan] at hmem
      exact absurd hmem (List.not_mem_nil raw)
    · rw [extract_eq_dedup text, mem_dedupFirst, extractRaw, if_neg htext]
      exact List.mem_filterMap.mpr ⟨raw, hmem, hts⟩

/-- C3 witness: the amended theorem applied to the token `"VOO"` in the text
`"VOO"`. -/
theorem extract_length_threshold_witness :
    tokenSymbol "VOO" = some "VOO" ∧ "VOO" ∈ extractList "VOO" := by
  have h := extract_length_threshold "VOO"
  have h1 := h.2.1 (by decide) (by decide) (by decide)
  have halias : aliasOf (upperStr (cleanTok "VOO")) = "VOO" := by decide
  rw [halias] at h1
  exact ⟨h1, h.2.2 "VOO" "VOO" (by decide) h1⟩

/-- C3 counterexample: the regex-matched token `"AB"` has length 2 and is no
stop word, yet it is dropped — the code's length threshold is 3, not 2. -/
theorem extract_two_char_counterexample :
    scanMatches (normalizePhrases "AB") = ["AB"] ∧
    ("AB" : String).length = 2 ∧
    "AB" ∉ STOP_WORDS ∧
    aliasOf "AB" = "AB" ∧
    tokenSymbol "AB" = none ∧
    extractList "AB" = [] := by
  refine ⟨by decide, by decide, by decide, by decide, by decide, by decide⟩

/-! ## C4 / C5 — provider fetchers -/

theorem dateLt_asymm (a b : NumBar) (h : dateLt a b = true) :
    dateLt b a = false := by
  rw [dateLt] at h ⊢
  exact charsLt_asymm _ _ h

theorem dateLt_trans (a b c : NumBar) (hab : dateLt a b = true)
    (hbc : dateLt b c = true) : dateLt a c = true := by
  rw [dateLt] at hab hbc ⊢
  exact charsLt_trans _ _ _ hab hbc

theorem stooqParseCsv_some (parse : String → Option ℚ) (csv : String)
    (bars : List NumBar) (h : stooqParseCsv parse csv = some bars) :
    (∀ b ∈ bars, b.c.isSome) ∧ bars ≠ [] := by
  rw [stooqParseCsv] at h
  split at h
  · exact absurd h (by simp)
  · split at h
    · exact absurd h (by simp)
    · split at h
      · exact absurd h (by simp)
      · dsimp only at h
        split at h
        · exact absurd h (by simp)
        · rename_i hlen
          rw [Option.some_inj] at h
          subst h
          refine ⟨?_, ?_⟩
          · intro b hb
            exact (List.mem_filter.mp hb).2
          · intro hnil
            rw [hnil] at hlen
            exact hlen rfl

theorem stooqGo_some (parse : String → Option ℚ)
    (fetch : String → Except Unit String) (symbol : String) :
    ∀ (cands : List String) (ph : NumPriceHistory),
      stooqGo parse fetch symbol cands = some ph →
        (∀ b ∈ ph.bars, b.c.isSome) ∧ ph.bars ≠ [] := by
  intro cands
  induction cands with
  | nil => intro ph h; exact absurd h (by rw [stooqGo]; simp)
  | cons c cs ih =>
    intro ph h
    rw [stooqGo] at h
    cases hf : fetch c with
    | error e =>
      rw [hf] at h
      exact ih ph h
    | ok csv =>
      rw [hf] at h
      dsimp only at h
      cases hp : stooqParseCsv parse csv with
      | none =>
        rw [hp] at h
        exact ih ph h
      | some bars =>
        rw [hp] at h
        dsimp only at h
        rw [Option.some_inj] at h
        subst h
        exact stooqParseCsv_some parse csv bars hp

/-- C4 (amended): every `PriceHistory` that `alphaVantageDaily` returns
non-null has its bars sorted ascending by date string and all closes finite;
`stooqDaily` guarantees finite closes and a non-empty bar list, but it keeps
the fetched CSV's line order and is NOT sorted when the CSV is not — see the
counterexample. -/
theorem provider_history_invariant :
    (∀ (enabled : Bool) (key : String) (fetched : Except Unit AvJson)
      (parse : String → Option ℚ) (symbol : String) (ph : NumPriceHistory),
      alphaVantageDaily enabled key fetched parse symbol = some ph →
        ph.bars.Pairwise (fun a b => dateLt b a = false) ∧
        ∀ b ∈ ph.bars, b.c.isSome) ∧
    (∀ (parse : String → Option ℚ) (fetch : String → Except Unit String)
      (symbol : String) (ph : NumPriceHistory),
      stooqDaily parse fetch symbol = some ph →
        (∀ b ∈ ph.bars, b.c.isSome) ∧ ph.bars ≠ []) := by
  constructor
  · intro enabled key fetched parse symbol ph h
    rw [alphaVantageDaily.eq_def] at h
    split at h
    · exact absurd h (by simp)
    · split at h
      · exact absurd h (by simp)
      · dsimp only at h
        split at h
        · exact absurd h (by simp)
        · split at h
          · exact absurd h (by simp)
          · rw [Option.some_inj] at h
            subst h
            refine ⟨?_, ?_⟩
            · exact pairwise_sortStable dateLt dateLt_asymm dateLt_trans _
            · intro b hb
              rw [mem_sortStable] at hb
              exact (List.mem_filter.mp hb).2
  · intro parse fetch symbol ph h
    exact stooqGo_some parse fetch symbol (buildTickerVariants symbol) ph h

/-- The Alpha Vantage JSON of the C4 witness: two days, out of order. -/
def avWitnessJson : AvJson :=
  ⟨none, none, none,
    some [("2024-01-02", ⟨"1", "1", "1", "5", "10"⟩),
          ("2024-01-01", ⟨"1", "1", "1", "6", "10"⟩)]⟩

/-- The history `alphaVantageDaily` builds from `avWitnessJson`: re-sorted
ascending. -/
def avWitnessPh : NumPriceHistory :=
  ⟨"SPY",
    [⟨"2024-01-01", some 1, some 1, some 1, some 6, some 10⟩,
     ⟨"2024-01-02", some 1, some 1, some 1, some 5, some 10⟩],
    true, ["alphaVantage"], none⟩

/-- The stooq CSV of the C4 witness (dates ascending). -/
def stooqWitnessCsv : String :=
  "Date,Open,High,Low,Close,Volume\n2024-01-01,1,1,1,6,10\n2024-01-02,1,1,1,5,10"

def stooqWitnessFetch : String → Except Unit String :=
  fun c => if c = "spy.us" then .ok stooqWitnessCsv else .error ()

def stooqWitnessPh : NumPriceHistory :=
  ⟨"SPY",
    [⟨"2024-01-01", some 1, some 1, some 1, some 6, some 10⟩,
     ⟨"2024-01-02", some 1, some 1, some 1, some 5, some 10⟩],
    false, ["stooq"], some "spy.us"⟩

/-- C4 witness: the amended theorem applied to concrete fetch results of both
providers. -/
theorem provider_history_invariant_witness :
    (avWitnessPh.bars.Pairwise (fun a b => dateLt b a = false) ∧
      ∀ b ∈ avWitnessPh.bars, b.c.isSome) ∧
    ((∀ b ∈ stooqWitnessPh.bars, b.c.isSome) ∧ stooqWitnessPh.bars ≠ []) := by
  refine ⟨?_, ?_⟩
  · exact provider_history_invariant.1 true "k" (.ok avWitnessJson) decLit "SPY"
      avWitnessPh (by decide)
  · exact provider_history_invariant.2 decLit stooqWitnessFetch "SPY"
      stooqWitnessPh (by decide)

/-- The out-of-order stooq CSV of the C4 counterexample. -/
def stooqUnsortedCsv : String :=
  "Date,Open,High,Low,Close,Volume\n2024-01-02,1,1,1,5,10\n2024-01-01,1,1,1,6,10"

def stooqUnsortedFetch : String → Except Unit String :=
  fun c => if c = "xyz" then .ok stooqUnsortedCsv else .error ()

def stooqUnsortedBars : List NumBar :=
  [⟨"2024-01-02", some 1, some 1, some 1, some 5, some 10⟩,
   ⟨"2024-01-01", some 1, some 1, some 1, some 6, some 10⟩]

/-- C4 counterexample: `stooqDaily` returns the CSV's bars in file order — a
CSV with descending dates yields a non-null `PriceHistory` whose bars are NOT
sorted ascending by date string. -/
theorem stooq_unsorted_counterexample :
    stooqDaily decLit stooqUnsortedFetch "xyz" =
      some ⟨"xyz", stooqUnsortedBars, false, ["stooq"], some "xyz"⟩ ∧
    ¬stooqUnsortedBars.Pairwise (fun a b => dateLt b a = false) := by
  refine ⟨by decide, by decide⟩

theorem stooqGo_all_error (parse : String → Option ℚ)
    (fetch : String → Except Unit String) (symbol : String)
    (herr : ∀ c, fetch c = .error ()) :
    ∀ cands : List String, stooqGo parse fetch symbol cands = none := by
  intro cands
  induction cands with
  | nil => rw [stooqGo]
  | cons c cs ih =>
    rw [stooqGo, herr c]
    exact ih

/-- C5: provider failures never escalate, and the snapshot handler always
resolves to an `ActionResult`: a rejected fetch (or an unusable body) makes
`alphaVantageDaily` resolve to `null`; when every candidate fetch rejects,
`stooqDaily` resolves to `null`; and when `buildSnapshot` rejects, the handler
resolves to a `success = false` result carrying the plain-text failure
message (by construction the handler model is a total function into
`ActionResult`, never a thrown exception); absent overview fields render as
the `"n/d"` placeholder. -/
theorem provider_failures_swallowed :
    (∀ (enabled : Bool) (key : String) (parse : String → Option ℚ)
      (symbol : String),
      alphaVantageDaily enabled key (.error ()) parse symbol = none) ∧
    (∀ (enabled : Bool) (key : String) (j : AvJson)
      (parse : String → Option ℚ) (symbol : String), j.series = none →
      alphaVantageDaily enabled key (.ok j) parse symbol = none) ∧
    (∀ (parse : String → Option ℚ) (fetch : String → Except Unit String)
      (symbol : String), (∀ c, fetch c = .error ()) →
      stooqDaily parse fetch symbol = none) ∧
    (∀ (roomId : Option String) (msgId reason : String) (st : HandlerState),
      cacheLookup (ensureCorrelationId st msgId).2.cache
        (snapshotCacheKey roomId (ensureCorrelationId st msgId).1) = none →
      (snapshotHandler false roomId msgId (.error reason) st).1 =
        snapshotFailureResult reason) ∧
    (∀ reason : String, (snapshotFailureResult reason).success = false ∧
      (snapshotFailureResult reason).text =
        some ("Impossibile completare la snapshot per ora (" ++ reason
          ++ "). Riprova tra poco.")) ∧
    (formatPercent none = "n/d" ∧ formatCurrency none = "n/d") := by
  refine ⟨?_, ?_, ?_, ?_, ?_, ?_⟩
  · intro enabled key parse symbol
    rw [alphaVantageDaily]
    split
    · rfl
    · split
      · rfl
      · rfl
  · intro enabled key j parse symbol hj
    rw [alphaVantageDaily]
    split
    · rfl
    · split
      · rfl
      · dsimp only
        split
        · rfl
        · rw [hj]
  · intro parse fetch symbol herr
    exact stooqGo_all_error parse fetch symbol herr (buildTickerVariants symbol)
  · intro roomId msgId reason st hmiss
    rcases hE : ensureCorrelationId st msgId with ⟨corrId, st1⟩
    rw [hE] at hmiss
    rw [snapshotHandler]
    simp only [Bool.false_eq_true, if_false, hE]
    rw [hmiss]
  · intro reason
    exact ⟨rfl, rfl⟩
  · exact ⟨rfl, rfl⟩

/-- C5 witness: the theorem applied to concrete failing fetches and a
concrete rejected build. -/
theorem provider_failures_swallowed_witness :
    alphaVantageDaily true "key" (.error ()) decLit "SPY" = none ∧
    stooqDaily decLit (fun _ => .error ()) "SPY" = none ∧
    (snapshotHandler false (some "room1") "m1" (.error "boom")
      ⟨none, []⟩).1 = snapshotFailureResult "boom" ∧
    (snapshotFailureResult "boom").success = false ∧
    formatPercent none = "n/d" := by
  refine ⟨provider_failures_swallowed.1 true "key" decLit "SPY",
    provider_failures_swallowed.2.2.1 decLit (fun _ => .error ()) "SPY"
      (fun c => rfl),
    provider_failures_swallowed.2.2.2.1 (some "room1") "m1" "boom" ⟨none, []⟩
      (by decide),
    (provider_failures_swallowed.2.2.2.2.1 "boom").1,
    provider_failures_swallowed.2.2.2.2.2.1⟩

/-! ## C6 — snapshot handler cache idempotence -/

/-- C6: when the snapshot cache already holds a result under the key built
from the message's roomId and correlation id, the handler returns exactly
that cached result, leaves the state as is (beyond ensuring the correlation
id), and does not rebuild — the third component `false` records that
`buildSnapshot`, and hence any provider fetching, never ran. -/
theorem snapshot_cache_idempotent (roomId : Option String) (msgId : String)
    (build : Except String ActionResult) (st : HandlerState) (r : ActionResult)
    (hcache : cacheLookup (ensureCorrelationId st msgId).2.cache
      (snapshotCacheKey roomId (ensureCorrelationId st msgId).1) = some r) :
    snapshotHandler false roomId msgId build st =
      (r, (ensureCorrelationId st msgId).2, false) := by
  rcases hE : ensureCorrelationId st msgId with ⟨corrId, st1⟩
  rw [hE] at hcache
  rw [snapshotHandler]
  simp only [Bool.false_eq_true, if_false, hE]
  rw [hcache]

/-- The pre-populated handler state of the C6 witness. -/
def cachedState : HandlerState :=
  ⟨some "corr1",
   [("room1:corr1", ⟨some "cached snapshot", true, none, none⟩)]⟩

/-- C6 witness: with a pre-populated cache, a further invocation — even one
whose build would fail — returns the cached result unchanged and performs no
build. -/
theorem snapshot_cache_idempotent_witness :
    snapshotHandler false (some "room1") "m1" (.error "boom") cachedState =
      (⟨some "cached snapshot", true, none, none⟩, cachedState, false) := by
  have h := snapshot_cache_idempotent (some "room1") "m1" (.error "boom")
    cachedState ⟨some "cached snapshot", true, none, none⟩ (by decide)
  have hE : (ensureCorrelationId cachedState "m1").2 = cachedState := by decide
  rw [hE] at h
  exact h

/-! ## C9 / C10 — Hyperliquid actions against the mocked SDK -/

/-- C9: with the mocked market data for PIP (midPx "19.73", prevDayPx
"20.10", dayNtlVlm "1053445.75") and extracted symbol "PIP", the priceCheck
handler invokes its callback with exactly the literal text
"PIP price: 19.73 USDC (24h change: -1.84%, volume: 1053445.75 USDC)" and
returns `true`. -/
theorem priceCheck_pip_literal :
    priceCheckHandler decLit (some "PIP") mockTokens mockAssetCtxs =
      (true,
        some "PIP price: 19.73 USDC (24h change: -1.84%, volume: 1053445.75 USDC)") := by
  decide

/-- C10: with the model extraction of "Buy 1 HYPE" (coin HYPE, is_buy true,
sz 1, no limit price) against the mocked SDK, the spot trade action places a
market order with `sz = 1` and `is_buy = true` on the `HYPE-SPOT` market and
reports success. -/
theorem spotTrade_buy_one_hype :
    spotTradeHandler (some ⟨"HYPE", true, 1, none⟩) mockTokens mockAssetCtxs
      decLit mockOrderResponse =
      (true, some ⟨"HYPE-SPOT", true, 1, OrderKind.market⟩,
        some "Successfully placed a market order to buy 1 HYPE") := by
  decide

end RIP2ETF
